import Mathlib

/-!
Verification of the AllMe recurring-task materialization engine and the
day-timeline overlap layout algorithm.

Shallow embedding conventions:

* Calendar dates (canonical `YYYY-MM-DD` strings) are modelled by their day
  number: the number of days since 1970-01-01.  On canonical date strings the
  lexicographic string order used by the source (`taskOrigin > windowStart`,
  `cursor <= end`, ...) agrees with the numeric order of day numbers, and the
  day-by-day walk `cursor.setDate(cursor.getDate() + 1)` is `+ 1` on day
  numbers.  `JS Date.getDay()` is `(d + 4) % 7` (1970-01-01 was a Thursday).
* Strings (ids, titles, ...) are modelled as `List Char`.
* Times of day (`HH:MM` strings) are modelled by their `timeToMinutes` value,
  minutes since midnight, a `Nat`.
* Timestamps (ISO strings such as `completedAt`) are modelled as `Nat`
  instants; only their equality/identity matters to the claims.
-/

namespace AllMe

/-- Weekday flags, from `src/types` (`RecurrenceDay`). -/
inductive RecurrenceDay where
  | sun | mon | tue | wed | thu | fri | sat
deriving DecidableEq, Repr

/-- Task status enumeration from `src/types`. -/
inductive TaskStatus where
  | todo | in_progress | done
deriving DecidableEq, Repr

/-- Task priority enumeration from `src/types`. -/
inductive TaskPriority where
  | low | medium | high
deriving DecidableEq, Repr

/-- `DAY_INDEX_TO_KEY` from `src/lib/recurrence.ts`: maps the value of
`JS Date.getDay()` (0 = Sunday) to a weekday flag. -/
def DAY_INDEX_TO_KEY : Nat → RecurrenceDay
  | 0 => .sun
  | 1 => .mon
  | 2 => .tue
  | 3 => .wed
  | 4 => .thu
  | 5 => .fri
  | _ => .sat

/-- `JS Date.getDay()` for a day number: 1970-01-01 (day 0) was a Thursday. -/
def getDay (d : Nat) : Nat := (d + 4) % 7

/-- The weekday flag of a date (`DAY_INDEX_TO_KEY[cursor.getDay()]`). -/
def dayKey (d : Nat) : RecurrenceDay := DAY_INDEX_TO_KEY (getDay d)

/-! ### Rendering a day number as its `YYYY-MM-DD` string

`toDateStr` of `src/lib/recurrence.ts` formats a JS `Date` as
`YYYY-MM-DD` (year unpadded via `String(...)`, month and day
zero-padded to two digits).  A JS `Date` holding midnight of day `d` is
modelled by `d` itself; the civil (year, month, day) triple is recovered
with the standard days-to-civil conversion. -/

/-- The decimal digit character for `n % 10`. -/
def digitChar (n : Nat) : Char := Char.ofNat (48 + n % 10)

/-- Fueled decimal rendering helper (fuel is always sufficient). -/
def natCharsCore : Nat → Nat → List Char → List Char
  | 0, _, acc => acc
  | fuel + 1, n, acc =>
    if n < 10 then digitChar n :: acc
    else natCharsCore fuel (n / 10) (digitChar (n % 10) :: acc)

/-- Decimal rendering of a natural number, as JS `String(n)`. -/
def natChars (n : Nat) : List Char := natCharsCore (n + 1) n []

/-- `String(n).padStart(2, '0')`. -/
def pad2 (n : Nat) : List Char :=
  if n < 10 then '0' :: natChars n else natChars n

/-- Civil (year, month, day) triple of a day number (days since 1970-01-01),
the standard days-to-civil conversion; models reading `getFullYear`,
`getMonth() + 1`, `getDate()` off a JS `Date`. -/
def civilFromDays (z0 : Nat) : Nat × Nat × Nat :=
  let z := z0 + 719468
  let era := z / 146097
  let doe := z % 146097
  let yoe := (doe - doe / 1460 + doe / 36524 - doe / 146096) / 365
  let y := yoe + era * 400
  let doy := doe - (365 * yoe + yoe / 4 - yoe / 100)
  let mp := (5 * doy + 2) / 153
  let d := doy - (153 * mp + 2) / 5 + 1
  let m := if mp < 10 then mp + 3 else mp - 9
  (if m ≤ 2 then y + 1 else y, m, d)

/-- `toDateStr` from `src/lib/recurrence.ts`: format a date as `YYYY-MM-DD`. -/
def toDateStr (d : Nat) : List Char :=
  let c := civilFromDays d
  natChars c.1 ++ '-' :: (pad2 c.2.1 ++ '-' :: pad2 c.2.2)

/-! ### The client-side `Task` record -/

/-- The client `Task` record (`src/types`, as read and written by
`src/lib/recurrence.ts` and the calendar components). -/
structure Task where
  id : List Char
  userId : List Char
  title : List Char
  description : Option (List Char)
  dueDate : Option Nat
  startTime : Option Nat
  endTime : Option Nat
  isRecurring : Bool
  recurrenceDays : List RecurrenceDay
  recurrenceEndDate : Option Nat
  priority : TaskPriority
  status : TaskStatus
  completedAt : Option Nat
  createdAt : Option Nat
  isVirtual : Bool
deriving DecidableEq, Repr

/-! ### Virtual instance ids -/

/-- The characters of `"virtual"`. -/
def virtualChars : List Char := ['v', 'i', 'r', 't', 'u', 'a', 'l']

/-- The characters of the `"virtual:"` id tag. -/
def virtualTag : List Char := virtualChars ++ [':']

/-- `String.prototype.startsWith`, on character lists. -/
def startsWithChars : List Char → List Char → Bool
  | [], _ => true
  | _ :: _, [] => false
  | t :: ts, c :: cs => t == c && startsWithChars ts cs

/-- Helper for `String.prototype.split(':')`: `acc` holds the (reversed)
characters of the current field. -/
def splitOnColonAux : List Char → List Char → List (List Char)
  | [], acc => [acc.reverse]
  | c :: cs, acc =>
    if c = ':' then acc.reverse :: splitOnColonAux cs []
    else splitOnColonAux cs (c :: acc)

/-- `String.prototype.split(':')`, on character lists. -/
def splitOnColon (l : List Char) : List (List Char) := splitOnColonAux l []

/-- `getRealTaskId` from `src/lib/recurrence.ts`: extract the real parent task
id from a virtual instance id (`id.split(':')[1]`); ids without the
`virtual:` tag are returned unchanged.  Under the tag guard the split always
has at least two fields, so `parts[1]` is modelled with a default. -/
def getRealTaskId (id : List Char) : List Char :=
  if startsWithChars virtualTag id then (splitOnColon id).getD 1 []
  else id

/-! ### Recurrence expansion (`expandRecurringTask`) -/

/-- The origin date of a recurring task:
`task.createdAt ? task.createdAt.slice(0, 10) : windowStart`. -/
def taskOrigin (task : Task) (windowStart : Nat) : Nat :=
  match task.createdAt with
  | some c => c
  | none => windowStart

/-- Effective start of the expansion walk:
`taskOrigin > windowStart ? taskOrigin : windowStart`. -/
def effectiveStart (task : Task) (windowStart : Nat) : Nat :=
  if taskOrigin task windowStart > windowStart then taskOrigin task windowStart
  else windowStart

/-- Effective end of the expansion walk:
`task.recurrenceEndDate && task.recurrenceEndDate < windowEnd ?
task.recurrenceEndDate : windowEnd`. -/
def effectiveEnd (task : Task) (windowEnd : Nat) : Nat :=
  match task.recurrenceEndDate with
  | some e => if e < windowEnd then e else windowEnd
  | none => windowEnd

/-- The day-by-day walk shared by `expandRecurringTask`
(`src/lib/recurrence.ts`) and the planned `generateOccurrenceDates` helper:
every date of `[startDate, endDate]` (inclusive; empty when
`startDate > endDate`) whose weekday flag is in `recurrenceDays`, in walk
order. -/
def generateOccurrenceDates (startDate endDate : Nat)
    (recurrenceDays : List RecurrenceDay) : List Nat :=
  (List.range' startDate (endDate + 1 - startDate)).filter
    (fun d => decide (dayKey d ∈ recurrenceDays))

/-- The virtual instance pushed for one matching date: all fields copied from
the parent, id retagged, `dueDate` set, `isVirtual` set. -/
def mkVirtualInstance (task : Task) (d : Nat) : Task :=
  { task with
    id := virtualChars ++ ':' :: (task.id ++ ':' :: toDateStr d)
    dueDate := some d
    isVirtual := true }

/-- `expandRecurringTask` from `src/lib/recurrence.ts`: one virtual instance
per matching recurrence date inside the window. -/
def expandRecurringTask (task : Task) (windowStart windowEnd : Nat) :
    List Task :=
  if !task.isRecurring || task.recurrenceDays.isEmpty then []
  else if effectiveStart task windowStart > effectiveEnd task windowEnd then []
  else
    (generateOccurrenceDates (effectiveStart task windowStart)
        (effectiveEnd task windowEnd) task.recurrenceDays).map
      (mkVirtualInstance task)

/-- The occurrence dates returned by the expansion: the `dueDate` of each
returned virtual instance. -/
def occurrenceDates (task : Task) (windowStart windowEnd : Nat) : List Nat :=
  (expandRecurringTask task windowStart windowEnd).filterMap Task.dueDate

/-! ### Lemmas about the expansion -/

theorem mem_generateOccurrenceDates {s e d : Nat} {days : List RecurrenceDay} :
    d ∈ generateOccurrenceDates s e days ↔ s ≤ d ∧ d ≤ e ∧ dayKey d ∈ days := by
  simp only [generateOccurrenceDates, List.mem_filter, List.mem_range'_1,
    decide_eq_true_eq]
  constructor
  · rintro ⟨⟨h1, h2⟩, h3⟩
    exact ⟨h1, by omega, h3⟩
  · rintro ⟨h1, h2, h3⟩
    exact ⟨⟨h1, by omega⟩, h3⟩

theorem pairwise_generateOccurrenceDates (s e : Nat)
    (days : List RecurrenceDay) :
    (generateOccurrenceDates s e days).Pairwise (· < ·) :=
  (List.pairwise_lt_range' s (e + 1 - s)).sublist (List.filter_sublist _)

theorem occurrenceDates_eq (task : Task) (ws we : Nat) :
    occurrenceDates task ws we =
      if !task.isRecurring || task.recurrenceDays.isEmpty then []
      else if effectiveStart task ws > effectiveEnd task we then []
      else
        generateOccurrenceDates (effectiveStart task ws)
          (effectiveEnd task we) task.recurrenceDays := by
  unfold occurrenceDates expandRecurringTask
  split
  · rfl
  · split
    · rfl
    · rw [List.filterMap_map]
      exact List.filterMap_some _

theorem ws_le_effectiveStart (task : Task) (ws : Nat) :
    ws ≤ effectiveStart task ws := by
  unfold effectiveStart
  split <;> omega

theorem origin_le_effectiveStart (task : Task) (ws : Nat) :
    taskOrigin task ws ≤ effectiveStart task ws := by
  unfold effectiveStart
  split <;> omega

theorem effectiveStart_le {task : Task} {ws d : Nat} (h1 : ws ≤ d)
    (h2 : taskOrigin task ws ≤ d) : effectiveStart task ws ≤ d := by
  unfold effectiveStart
  split <;> omega

theorem effectiveEnd_le_we (task : Task) (we : Nat) :
    effectiveEnd task we ≤ we := by
  unfold effectiveEnd
  cases task.recurrenceEndDate with
  | none => exact Nat.le_refl we
  | some e =>
    simp only
    split <;> omega

theorem le_effectiveEnd {task : Task} {we d : Nat} (h1 : d ≤ we)
    (h2 : ∀ e ∈ task.recurrenceEndDate, d ≤ e) :
    d ≤ effectiveEnd task we := by
  unfold effectiveEnd
  cases h : task.recurrenceEndDate with
  | none => exact h1
  | some e =>
    have := h2 e (by rw [h]; rfl)
    simp only
    split <;> omega

theorem recurrenceEnd_ge_of_le_effectiveEnd {task : Task} {we d : Nat}
    (h1 : d ≤ effectiveEnd task we) :
    ∀ e ∈ task.recurrenceEndDate, d ≤ e := by
  intro e he
  have hwe := effectiveEnd_le_we task we
  unfold effectiveEnd at h1
  rw [he] at h1
  simp only at h1
  revert h1
  split <;> omega

/-- The expansion-correctness property (claim C1) at one task and window:
soundness of every returned occurrence date (inside the window, weekday in
the weekday set, not before the origin date), strict ascending order with no
duplicate, and completeness (no date of the window satisfying the rule is
skipped). -/
def ExpansionCorrect (task : Task) (ws we : Nat) : Prop :=
  (∀ d ∈ occurrenceDates task ws we,
      ws ≤ d ∧ d ≤ we ∧ dayKey d ∈ task.recurrenceDays ∧
        taskOrigin task ws ≤ d) ∧
  (occurrenceDates task ws we).Pairwise (· < ·) ∧
  (∀ d : Nat, ws ≤ d → d ≤ we → dayKey d ∈ task.recurrenceDays →
      taskOrigin task ws ≤ d → (∀ e ∈ task.recurrenceEndDate, d ≤ e) →
      d ∈ occurrenceDates task ws we)

/-- C1: for every recurring task and well-formed inclusive window, every
occurrence date returned by `expandRecurringTask` lies in the window, has
its weekday in the weekday set and is at least the origin date; the
returned dates are strictly ascending with no duplicate; and no date of the
window satisfying the rule is skipped. -/
theorem expandRecurringTask_correct (task : Task) (ws we : Nat)
    (hrec : task.isRecurring = true) (_hwin : ws ≤ we) :
    ExpansionCorrect task ws we := by
  have heq := occurrenceDates_eq task ws we
  rw [hrec] at heq
  by_cases hdays : task.recurrenceDays.isEmpty
  · rw [if_pos (by rw [hdays]; rfl)] at heq
    refine ⟨?_, ?_, ?_⟩
    · intro d hd
      rw [heq] at hd
      cases hd
    · rw [heq]
      exact List.Pairwise.nil
    · intro d _ _ hmem _ _
      rw [List.isEmpty_iff] at hdays
      rw [hdays] at hmem
      cases hmem
  · rw [if_neg (by simp [hdays])] at heq
    by_cases hgap : effectiveStart task ws > effectiveEnd task we
    · rw [if_pos hgap] at heq
      refine ⟨?_, ?_, ?_⟩
      · intro d hd
        rw [heq] at hd
        cases hd
      · rw [heq]
        exact List.Pairwise.nil
      · intro d h1 h2 _ h4 h5
        have hs : effectiveStart task ws ≤ d := effectiveStart_le h1 h4
        have he : d ≤ effectiveEnd task we := le_effectiveEnd h2 h5
        omega
    · rw [if_neg hgap] at heq
      refine ⟨?_, ?_, ?_⟩
      · intro d hd
        rw [heq] at hd
        obtain ⟨h1, h2, h3⟩ := mem_generateOccurrenceDates.mp hd
        refine ⟨le_trans (ws_le_effectiveStart task ws) h1,
          le_trans h2 (effectiveEnd_le_we task we), h3,
          le_trans (origin_le_effectiveStart task ws) h1⟩
      · rw [heq]
        exact pairwise_generateOccurrenceDates _ _ _
      · intro d h1 h2 h3 h4 h5
        rw [heq]
        exact mem_generateOccurrenceDates.mpr
          ⟨effectiveStart_le h1 h4, le_effectiveEnd h2 h5, h3⟩

/-- C8: the recurrence expansion is monotone in the window — dates produced
for a narrower window are a subset of those produced for a containing
wider window, for the same task. -/
theorem expandRecurringTask_window_monotone (task : Task) (S s e E : Nat)
    (hS : S ≤ s) (hE : e ≤ E) :
    ∀ d ∈ occurrenceDates task s e, d ∈ occurrenceDates task S E := by
  intro d hd
  rw [occurrenceDates_eq] at hd ⊢
  by_cases hguard : !task.isRecurring || task.recurrenceDays.isEmpty
  · rw [if_pos hguard] at hd
    cases hd
  · rw [if_neg hguard] at hd ⊢
    by_cases hgap : effectiveStart task s > effectiveEnd task e
    · rw [if_pos hgap] at hd
      cases hd
    · rw [if_neg hgap] at hd
      obtain ⟨h1, h2, h3⟩ := mem_generateOccurrenceDates.mp hd
      have hws : S ≤ d := le_trans hS (le_trans (ws_le_effectiveStart task s) h1)
      have horig : taskOrigin task S ≤ d := by
        have h0 : taskOrigin task s ≤ d :=
          le_trans (origin_le_effectiveStart task s) h1
        unfold taskOrigin at h0 ⊢
        cases hc : task.createdAt with
        | none => exact hws
        | some c =>
          rw [hc] at h0
          exact h0
      have hwe : d ≤ E :=
        le_trans h2 (le_trans (effectiveEnd_le_we task e) hE)
      have hrecEnd : ∀ x ∈ task.recurrenceEndDate, d ≤ x :=
        recurrenceEnd_ge_of_le_effectiveEnd h2
      have hs2 : effectiveStart task S ≤ d := effectiveStart_le hws horig
      have he2 : d ≤ effectiveEnd task E := le_effectiveEnd hwe hrecEnd
      rw [if_neg (by omega)]
      exact mem_generateOccurrenceDates.mpr ⟨hs2, he2, h3⟩

/-! ### Lemmas about virtual ids -/

theorem startsWithChars_append (t r : List Char) :
    startsWithChars t (t ++ r) = true := by
  induction t with
  | nil => rfl
  | cons c cs ih => simp [startsWithChars, ih]

theorem splitOnColonAux_append :
    ∀ (l : List Char), ':' ∉ l → ∀ (acc r : List Char),
      splitOnColonAux (l ++ ':' :: r) acc =
        (acc.reverse ++ l) :: splitOnColonAux r []
  | [], _, acc, r => by simp [splitOnColonAux]
  | c :: cs, hl, acc, r => by
    have hc : ¬(c = ':') := fun h => hl (h ▸ List.mem_cons_self c cs)
    have hcs : ':' ∉ cs := fun h => hl (List.mem_cons_of_mem c h)
    show splitOnColonAux (c :: (cs ++ ':' :: r)) acc = _
    simp only [splitOnColonAux, if_neg hc]
    rw [splitOnColonAux_append cs hcs (c :: acc) r]
    simp

theorem splitOnColonAux_no_colon :
    ∀ (l : List Char), ':' ∉ l → ∀ acc : List Char,
      splitOnColonAux l acc = [acc.reverse ++ l]
  | [], _, acc => by simp [splitOnColonAux]
  | c :: cs, hl, acc => by
    have hc : ¬(c = ':') := fun h => hl (h ▸ List.mem_cons_self c cs)
    have hcs : ':' ∉ cs := fun h => hl (List.mem_cons_of_mem c h)
    simp only [splitOnColonAux, if_neg hc]
    rw [splitOnColonAux_no_colon cs hcs (c :: acc)]
    simp

/-- C10: round trip of virtual instance ids — for a parent task whose id
contains no colon, `getRealTaskId` applied to the id of any instance
produced by `expandRecurringTask` returns exactly the parent id; and any id
that does not start with the `virtual:` tag is returned unchanged. -/
theorem getRealTaskId_roundtrip :
    (∀ (task : Task) (ws we : Nat) (inst : Task), ':' ∉ task.id →
        inst ∈ expandRecurringTask task ws we →
        getRealTaskId inst.id = task.id) ∧
    (∀ id : List Char, startsWithChars virtualTag id = false →
        getRealTaskId id = id) := by
  constructor
  · intro task ws we inst hcolon hmem
    unfold expandRecurringTask at hmem
    split at hmem
    · cases hmem
    · split at hmem
      · cases hmem
      · obtain ⟨d, _, rfl⟩ := List.mem_map.mp hmem
        show getRealTaskId (virtualChars ++ ':' :: (task.id ++ ':' :: toDateStr d)) = task.id
        have htag : virtualChars ++ ':' :: (task.id ++ ':' :: toDateStr d) =
            virtualTag ++ (task.id ++ ':' :: toDateStr d) := by
          simp [virtualTag]
        unfold getRealTaskId
        rw [htag, if_pos (startsWithChars_append _ _)]
        unfold splitOnColon
        rw [show virtualTag ++ (task.id ++ ':' :: toDateStr d) =
          virtualChars ++ ':' :: (task.id ++ ':' :: toDateStr d) from htag.symm]
        rw [splitOnColonAux_append virtualChars (by decide) [] _]
        rw [splitOnColonAux_append task.id hcolon [] _]
        rfl
  · intro id h
    unfold getRealTaskId
    rw [if_neg (by simp [h])]

/-! ### Day-timeline overlap layout (`computeLayout`, DayPanel.tsx) -/

/-- One entry of the `sorted` working list of `computeLayout`: a timed task
with its computed `startMin` and `endMin`. -/
structure TimedItem where
  task : Task
  startMin : Nat
  endMin : Nat
deriving DecidableEq, Repr

/-- One output entry of `computeLayout`: a timed task with its assigned
column and the column count of its overlap group. -/
structure LayoutTask where
  task : Task
  startMin : Nat
  endMin : Nat
  col : Nat
  totalCols : Nat
deriving DecidableEq, Repr

/-- The `group.forEach` of `flushGroup`: member `idx` of the closing group
receives `col = idx` and the group size as `totalCols`. -/
def assignCols (totalCols : Nat) : Nat → List TimedItem → List LayoutTask
  | _, [] => []
  | idx, item :: rest =>
    { task := item.task, startMin := item.startMin, endMin := item.endMin,
      col := idx, totalCols := totalCols } :: assignCols totalCols (idx + 1) rest

/-- `flushGroup` of `computeLayout`: push every member of the closing group
with `totalCols = group.length` and `col` = its position in the group. -/
def flushGroup (group : List TimedItem) : List LayoutTask :=
  assignCols group.length 0 group

/-- The sweep loop of `computeLayout`: a new group starts iff the current
item has `startMin >= groupEnd` (the running maximum end of the in-progress
group, initially `-1`); otherwise the item joins the current group and
`groupEnd` grows to the item end if larger. -/
def sweep : List TimedItem → List TimedItem → Int → List LayoutTask
  | [], group, _ => flushGroup group
  | item :: rest, group, groupEnd =>
    if (item.startMin : Int) ≥ groupEnd then
      flushGroup group ++ sweep rest [item] (max (-1) (item.endMin : Int))
    else
      sweep rest (group ++ [item]) (max groupEnd (item.endMin : Int))

/-- `computeLayout` from `src/components/calendar/DayPanel.tsx`: keep the
tasks that have a start time, compute start and end minutes (one-hour
default duration when the end time is missing), stable-sort ascending by
start minute, then sweep into chained overlap groups, assigning one column
per group member. -/
def computeLayout (timedTasks : List Task) : List LayoutTask :=
  if timedTasks.isEmpty then []
  else
    sweep
      (List.insertionSort (fun a b => a.startMin ≤ b.startMin)
        ((timedTasks.filter (fun t => t.startTime.isSome)).map
          (fun t =>
            { task := t, startMin := t.startTime.getD 0,
              endMin :=
                match t.endTime with
                | some e => e
                | none => t.startTime.getD 0 + 60 })))
      [] (-1)

/-! ### Lemmas about the layout -/

instance : IsTotal TimedItem (fun a b => a.startMin ≤ b.startMin) :=
  ⟨fun a b => Nat.le_total a.startMin b.startMin⟩

instance : IsTrans TimedItem (fun a b => a.startMin ≤ b.startMin) :=
  ⟨fun _ _ _ => Nat.le_trans⟩

theorem assignCols_mem {n : Nat} :
    ∀ {idx : Nat} {g : List TimedItem} {x : LayoutTask},
      x ∈ assignCols n idx g →
      (∃ y ∈ g, x.startMin = y.startMin ∧ x.endMin = y.endMin) ∧
        idx ≤ x.col ∧ x.totalCols = n := by
  intro idx g
  induction g generalizing idx with
  | nil =>
    intro x hx
    cases hx
  | cons item rest ih =>
    intro x hx
    rcases List.mem_cons.mp hx with rfl | hx
    · exact ⟨⟨item, List.mem_cons_self _ _, rfl, rfl⟩, Nat.le_refl _, rfl⟩
    · obtain ⟨⟨y, hy, h1, h2⟩, h3, h4⟩ := ih hx
      exact ⟨⟨y, List.mem_cons_of_mem _ hy, h1, h2⟩, by omega, h4⟩

theorem assignCols_pairwise_col {n : Nat} :
    ∀ {idx : Nat} {g : List TimedItem},
      (assignCols n idx g).Pairwise (fun a b => a.col < b.col) := by
  intro idx g
  induction g generalizing idx with
  | nil => exact List.Pairwise.nil
  | cons item rest ih =>
    refine List.Pairwise.cons ?_ ih
    intro x hx
    have := (assignCols_mem hx).2.1
    show idx < x.col
    omega

theorem flushGroup_mem {g : List TimedItem} {x : LayoutTask}
    (hx : x ∈ flushGroup g) :
    ∃ y ∈ g, x.startMin = y.startMin ∧ x.endMin = y.endMin :=
  (assignCols_mem hx).1

theorem flushGroup_pairwise_col (g : List TimedItem) :
    (flushGroup g).Pairwise (fun a b => a.col < b.col) :=
  assignCols_pairwise_col

theorem sweep_start_lb :
    ∀ (rest group : List TimedItem) (gE : Int) (s : Nat),
      (∀ r ∈ rest, s ≤ r.startMin) → (∀ g ∈ group, s ≤ g.startMin) →
      ∀ x ∈ sweep rest group gE, s ≤ x.startMin := by
  intro rest
  induction rest with
  | nil =>
    intro group gE s _ hg x hx
    obtain ⟨y, hy, h1, _⟩ := flushGroup_mem hx
    rw [h1]
    exact hg y hy
  | cons item rest ih =>
    intro group gE s hr hg x hx
    simp only [sweep] at hx
    split at hx
    · rcases List.mem_append.mp hx with hx | hx
      · obtain ⟨y, hy, h1, _⟩ := flushGroup_mem hx
        rw [h1]
        exact hg y hy
      · refine ih [item] _ s (fun r hr2 => hr r (List.mem_cons_of_mem _ hr2))
          ?_ x hx
        intro g hg2
        rw [List.mem_singleton] at hg2
        rw [hg2]
        exact hr item (List.mem_cons_self _ _)
    · refine ih (group ++ [item]) _ s
        (fun r hr2 => hr r (List.mem_cons_of_mem _ hr2)) ?_ x hx
      intro g hg2
      rcases List.mem_append.mp hg2 with hg2 | hg2
      · exact hg g hg2
      · rw [List.mem_singleton] at hg2
        rw [hg2]
        exact hr item (List.mem_cons_self _ _)

theorem sweep_pairwise :
    ∀ (rest group : List TimedItem) (gE : Int),
      rest.Pairwise (fun a b => a.startMin ≤ b.startMin) →
      (∀ g ∈ group, (g.endMin : Int) ≤ gE) →
      (sweep rest group gE).Pairwise
        (fun a b => a.col = b.col →
          ¬(a.startMin < b.endMin ∧ b.startMin < a.endMin)) := by
  intro rest
  induction rest with
  | nil =>
    intro group gE _ _
    exact (flushGroup_pairwise_col group).imp (by omega)
  | cons item rest ih =>
    intro group gE hsorted hbound
    have hr := (List.pairwise_cons.mp hsorted).1
    have htail := (List.pairwise_cons.mp hsorted).2
    simp only [sweep]
    split
    · rename_i hge
      rw [List.pairwise_append]
      refine ⟨(flushGroup_pairwise_col group).imp (by omega), ?_, ?_⟩
      · refine ih [item] _ htail ?_
        intro g hg
        rw [List.mem_singleton] at hg
        rw [hg]
        exact le_max_right _ _
      · intro a ha b hb
        obtain ⟨ya, hya, _, h2⟩ := flushGroup_mem ha
        have hbnd : (ya.endMin : Int) ≤ gE := hbound ya hya
        have hstart : item.startMin ≤ b.startMin := by
          refine sweep_start_lb rest [item] _ item.startMin hr ?_ b hb
          intro g hg
          rw [List.mem_singleton] at hg
          rw [hg]
        have : a.endMin ≤ item.startMin := by
          rw [h2]
          have : (ya.endMin : Int) ≤ (item.startMin : Int) := le_trans hbnd hge
          exact_mod_cast this
        intro _
        rintro ⟨_, hlt⟩
        omega
    · refine ih (group ++ [item]) _ htail ?_
      intro g hg
      rcases List.mem_append.mp hg with hg | hg
      · exact le_trans (hbound g hg) (le_max_left _ _)
      · rw [List.mem_singleton] at hg
        rw [hg]
        exact le_max_right _ _

/-- C2: the layout is collision-free — in the output of `computeLayout`, no
two entries assigned the same column have overlapping half-open
`[startMin, endMin)` intervals. -/
theorem computeLayout_no_overlap (ts : List Task) :
    (computeLayout ts).Pairwise
      (fun a b => a.col = b.col →
        ¬(a.startMin < b.endMin ∧ b.startMin < a.endMin)) := by
  unfold computeLayout
  split
  · exact List.Pairwise.nil
  · refine sweep_pairwise _ [] _ ?_ ?_
    · exact List.sorted_insertionSort _ _
    · intro g hg
      cases hg

/-! ### The persisted record set (SeriesMaterializer)

The series lifecycle of the refactor ("one row per occurrence", with a
template row and a shared `recurrence_group_id`) is specified by the plan
document in the repository and by its callers (`TaskCard`,
`WeeklyCalendar`); the rewritten `useTasks.ts` hooks themselves are not in
the source snapshot, so the series operations below are modelled from the
spec and the plan snippets.  The single-row mutation `useToggleTaskStatus`
is taken directly from the `src/hooks/useTasks.ts` in the snapshot.

Row ids, owner ids and series ids are opaque uuids, modelled as `Nat`;
`new Date().toISOString()` instants are explicit `Nat` parameters. -/

/-- A persisted `tasks` row (`src/db/schema.ts`). -/
structure TaskRow where
  id : Nat
  userId : Nat
  title : List Char
  description : Option (List Char)
  dueDate : Option Nat
  startTime : Option Nat
  endTime : Option Nat
  isRecurring : Bool
  recurrenceDays : List RecurrenceDay
  recurrenceEndDate : Option Nat
  recurrenceGroupId : Option Nat
  priority : TaskPriority
  status : TaskStatus
  completedAt : Option Nat
  createdAt : Nat
  updatedAt : Nat
deriving DecidableEq, Repr

/-- Modelled from the spec: `listVisibleTasks(ownerId)`.  The refactored
`useOwnTasks` hook is missing from the snapshot; the plan specifies the
query `eq(user_id, owner)` with the filter
`or(recurrence_group_id.is.null, due_date.not.is.null)`. -/
def listVisibleTasks (db : List TaskRow) (ownerId : Nat) : List TaskRow :=
  db.filter (fun r =>
    decide (r.userId = ownerId) &&
      (r.recurrenceGroupId.isNone || r.dueDate.isSome))

/-- The row patch applied by `completeSeries` to every matching row:
`status = done`, `completed_at = now`, `updated_at = now` when both the
owner and the series id match, identity otherwise. -/
def seriesDonePatch (seriesId ownerId now : Nat) (r : TaskRow) : TaskRow :=
  if r.userId = ownerId ∧ r.recurrenceGroupId = some seriesId then
    { r with status := .done, completedAt := some now, updatedAt := now }
  else r

/-- Modelled from the spec: `completeSeries(seriesId, ownerId)`
(plan snippet `useCompleteAllRecurringTasks`): UPDATE every row matching
both `eq(user_id, owner)` and `eq(recurrence_group_id, seriesId)` to
`done`, stamping `completed_at` and `updated_at`.  An update matching zero
rows succeeds, so the operation is total; it returns the new record set
and the matched-row count. -/
def completeSeries (db : List TaskRow) (seriesId ownerId now : Nat) :
    List TaskRow × Nat :=
  (db.map (seriesDonePatch seriesId ownerId now),
   db.countP (fun r =>
     decide (r.userId = ownerId ∧ r.recurrenceGroupId = some seriesId)))

/-- Modelled from the spec: `deleteSeries(seriesId, ownerId)`
(plan snippet `useDeleteAllRecurringOccurrences`): DELETE every row
matching both the owner and the series id; total, returning the remaining
record set and the matched-row count. -/
def deleteSeries (db : List TaskRow) (seriesId ownerId : Nat) :
    List TaskRow × Nat :=
  (db.filter (fun r =>
     decide (¬(r.userId = ownerId ∧ r.recurrenceGroupId = some seriesId))),
   db.countP (fun r =>
     decide (r.userId = ownerId ∧ r.recurrenceGroupId = some seriesId)))

/-- `useToggleTaskStatus` from `src/hooks/useTasks.ts`: flip one task
between `done` and `todo` — UPDATE `status`, stamp or clear
`completed_at`, stamp `updated_at`, scoped by `eq(id, taskId)` and
`eq(user_id, owner)`. -/
def toggleTaskStatus (db : List TaskRow) (taskId ownerId : Nat)
    (currentStatus : TaskStatus) (now : Nat) : List TaskRow :=
  db.map (fun r =>
    if r.id = taskId ∧ r.userId = ownerId then
      { r with
        status := if currentStatus = .done then .todo else .done,
        completedAt :=
          if (if currentStatus = .done then TaskStatus.todo else .done) =
              .done then some now
          else none,
        updatedAt := now }
    else r)

/-- The fields a user submits for a new series (content fields of the
form). -/
structure SeriesFields where
  title : List Char
  description : Option (List Char)
  startTime : Option Nat
  endTime : Option Nat
  priority : TaskPriority
deriving DecidableEq, Repr

/-- A recurrence rule as submitted: weekday set and optional end date. -/
structure SeriesRule where
  weekdaySet : List RecurrenceDay
  recurrenceEndDate : Option Nat
deriving DecidableEq, Repr

/-- The fixed forward-generation horizon of the plan, in days. -/
def seriesHorizon : Nat := 90

/-- Modelled from the spec: the generation window end of `createSeries` —
`recurrenceEndDate` if set, otherwise today plus the fixed horizon. -/
def generationWindowEnd (rule : SeriesRule) (today : Nat) : Nat :=
  match rule.recurrenceEndDate with
  | some e => e
  | none => today + seriesHorizon

/-- Modelled from the spec: the template row created first by
`createSeries` — null due date, recurring, the rule fields, and its own id
reused as the series id. -/
def mkTemplate (templateId ownerId : Nat) (f : SeriesFields)
    (rule : SeriesRule) (now : Nat) : TaskRow where
  id := templateId
  userId := ownerId
  title := f.title
  description := f.description
  dueDate := none
  startTime := f.startTime
  endTime := f.endTime
  isRecurring := true
  recurrenceDays := rule.weekdaySet
  recurrenceEndDate := rule.recurrenceEndDate
  recurrenceGroupId := some templateId
  priority := f.priority
  status := .todo
  completedAt := none
  createdAt := now
  updatedAt := now

/-- Modelled from the spec: one occurrence row — every field copied from
the template except a fresh id, `due_date` set to the occurrence date and
`status = todo`. -/
def mkOccurrence (template : TaskRow) (occId d : Nat) : TaskRow :=
  { template with id := occId, dueDate := some d, status := .todo }

/-- Validation failure of `createSeries` (empty title or weekday set). -/
inductive CreateSeriesError where
  | validationError
deriving DecidableEq, Repr

/-- Modelled from the spec: `createSeries(ownerId, fields, rule)` —
validate, insert the template row, expand the rule over the generation
window `[today, generationWindowEnd]`, and bulk-insert one occurrence row
per date.  `templateId` is the id the store assigns the template;
`freshId i` is the id the store assigns occurrence number `i`.  Returns
the new record set, the series id and the occurrence count. -/
def createSeries (db : List TaskRow) (ownerId : Nat) (f : SeriesFields)
    (rule : SeriesRule) (today templateId : Nat) (freshId : Nat → Nat)
    (now : Nat) : Except CreateSeriesError (List TaskRow × Nat × Nat) :=
  if f.title = [] ∨ rule.weekdaySet = [] then .error .validationError
  else
    let template := mkTemplate templateId ownerId f rule now
    let occs :=
      (generateOccurrenceDates today (generationWindowEnd rule today)
          rule.weekdaySet).enum.map
        (fun p => mkOccurrence template (freshId p.1) p.2)
    .ok (db ++ template :: occs, templateId, occs.length)

/-! ### Theorems about the series operations -/

theorem mem_listVisibleTasks {db : List TaskRow} {ownerId : Nat}
    {r : TaskRow} :
    r ∈ listVisibleTasks db ownerId ↔
      r ∈ db ∧ r.userId = ownerId ∧
        (r.recurrenceGroupId = none ∨ r.dueDate ≠ none) := by
  simp [listVisibleTasks, List.mem_filter, Option.isNone_iff_eq_none,
    Option.isSome_iff_ne_none, and_assoc]

/-- C3: the visible-task query returns exactly the records of the owner
that either have no series id or have a non-null due date; consequently a
series template — a record with a series id and a null due date — never
appears in the visible list of its owner. -/
theorem listVisibleTasks_spec :
    (∀ (db : List TaskRow) (ownerId : Nat) (r : TaskRow),
        r ∈ listVisibleTasks db ownerId ↔
          r ∈ db ∧ r.userId = ownerId ∧
            (r.recurrenceGroupId = none ∨ r.dueDate ≠ none)) ∧
    (∀ (db : List TaskRow) (ownerId : Nat) (t : TaskRow),
        t.recurrenceGroupId ≠ none → t.dueDate = none →
        t ∉ listVisibleTasks db ownerId) := by
  refine ⟨fun db ownerId r => mem_listVisibleTasks, ?_⟩
  intro db ownerId t hgroup hdue hmem
  rcases (mem_listVisibleTasks.mp hmem).2.2 with h | h
  · exact hgroup h
  · exact h hdue

/-- The C4 postcondition of `createSeries` at one full argument tuple:
success, with the new record set extending the old one by the template and
a block of occurrence rows carrying exactly the expansion dates as due
dates (one row per date, in order), each occurrence `todo`, owned, tagged
with the shared series id and copying the submitted content fields; the
number of visible records grows by exactly the size of the expansion. -/
def CreateSeriesOk (db : List TaskRow) (ownerId : Nat) (f : SeriesFields)
    (rule : SeriesRule) (today templateId : Nat) (freshId : Nat → Nat)
    (now : Nat) : Prop :=
  ∃ occs : List TaskRow,
    createSeries db ownerId f rule today templateId freshId now =
      .ok (db ++ mkTemplate templateId ownerId f rule now :: occs,
        templateId, occs.length) ∧
    occs.map TaskRow.dueDate =
      (generateOccurrenceDates today (generationWindowEnd rule today)
        rule.weekdaySet).map some ∧
    (∀ o ∈ occs,
      o.status = .todo ∧ o.recurrenceGroupId = some templateId ∧
        o.userId = ownerId ∧ o.title = f.title ∧
        o.description = f.description ∧ o.startTime = f.startTime ∧
        o.endTime = f.endTime ∧ o.priority = f.priority) ∧
    (listVisibleTasks
        (db ++ mkTemplate templateId ownerId f rule now :: occs)
        ownerId).length =
      (listVisibleTasks db ownerId).length +
        (generateOccurrenceDates today (generationWindowEnd rule today)
          rule.weekdaySet).length

/-- C4: after `createSeries` succeeds for a valid rule, exactly one `todo`
occurrence row per expansion date has been created, carrying the shared
series id, the date as due date and the submitted content fields, and the
visible-record count grows by exactly the expansion size. -/
theorem createSeries_spec (db : List TaskRow) (ownerId : Nat)
    (f : SeriesFields) (rule : SeriesRule) (today templateId : Nat)
    (freshId : Nat → Nat) (now : Nat)
    (htitle : f.title ≠ []) (hdays : rule.weekdaySet ≠ []) :
    CreateSeriesOk db ownerId f rule today templateId freshId now := by
  unfold CreateSeriesOk createSeries
  rw [if_neg (by simp [htitle, hdays])]
  set template := mkTemplate templateId ownerId f rule now with htemplate
  set dates :=
    generateOccurrenceDates today (generationWindowEnd rule today)
      rule.weekdaySet with hdates
  refine ⟨dates.enum.map (fun p => mkOccurrence template (freshId p.1) p.2),
    rfl, ?_, ?_, ?_⟩
  · rw [List.map_map]
    have : (TaskRow.dueDate ∘ fun p : Nat × Nat =>
        mkOccurrence template (freshId p.1) p.2) =
        (some ∘ Prod.snd) := rfl
    rw [this, ← List.map_map, List.enum_map_snd]
  · intro o ho
    obtain ⟨p, _, rfl⟩ := List.mem_map.mp ho
    exact ⟨rfl, rfl, rfl, rfl, rfl, rfl, rfl, rfl⟩
  · rw [listVisibleTasks, listVisibleTasks, List.filter_append,
      List.filter_cons]
    have htmpl : (decide (template.userId = ownerId) &&
        (template.recurrenceGroupId.isNone || template.dueDate.isSome)) =
          false := by
      simp [htemplate, mkTemplate]
    simp only [htmpl, Bool.false_eq_true, if_false]
    have hoccs : ∀ o ∈ dates.enum.map
        (fun p => mkOccurrence template (freshId p.1) p.2),
        (decide (o.userId = ownerId) &&
          (o.recurrenceGroupId.isNone || o.dueDate.isSome)) = true := by
      intro o ho
      obtain ⟨p, _, rfl⟩ := List.mem_map.mp ho
      simp [mkOccurrence, htemplate, mkTemplate]
    rw [List.filter_eq_self.mpr hoccs, List.length_append, List.length_map,
      List.enum_length]

/-- C6: `completeSeries` is idempotent — running it twice in a row yields
exactly the record set of a single run (performed at the second instant);
the second run changes no status (a fully-done series stays as it is) and
reports the same matched-row count. -/
theorem completeSeries_idempotent (db : List TaskRow)
    (seriesId ownerId now1 now2 : Nat) :
    (completeSeries (completeSeries db seriesId ownerId now1).1 seriesId
        ownerId now2).1 =
      (completeSeries db seriesId ownerId now2).1 ∧
    (completeSeries (completeSeries db seriesId ownerId now1).1 seriesId
        ownerId now2).1.map TaskRow.status =
      (completeSeries db seriesId ownerId now1).1.map TaskRow.status ∧
    (completeSeries (completeSeries db seriesId ownerId now1).1 seriesId
        ownerId now2).2 =
      (completeSeries db seriesId ownerId now1).2 := by
  have hpatch : ∀ r : TaskRow,
      seriesDonePatch seriesId ownerId now2
          (seriesDonePatch seriesId ownerId now1 r) =
        seriesDonePatch seriesId ownerId now2 r := by
    intro r
    by_cases h : r.userId = ownerId ∧ r.recurrenceGroupId = some seriesId
    · simp [seriesDonePatch, h]
    · simp [seriesDonePatch, h]
  refine ⟨?_, ?_, ?_⟩
  · show ((db.map (seriesDonePatch seriesId ownerId now1)).map
        (seriesDonePatch seriesId ownerId now2)) = _
    rw [List.map_map]
    exact List.map_congr_left (fun r _ => hpatch r)
  · show ((db.map (seriesDonePatch seriesId ownerId now1)).map
        (seriesDonePatch seriesId ownerId now2)).map TaskRow.status =
      (db.map (seriesDonePatch seriesId ownerId now1)).map TaskRow.status
    simp only [List.map_map]
    refine List.map_congr_left (fun r _ => ?_)
    simp only [Function.comp]
    by_cases h : r.userId = ownerId ∧ r.recurrenceGroupId = some seriesId
    · simp [seriesDonePatch, h]
    · simp [seriesDonePatch, h]
  · show (db.map (seriesDonePatch seriesId ownerId now1)).countP _ = _
    rw [List.countP_map]
    refine List.countP_congr (fun r _ => ?_)
    by_cases h : r.userId = ownerId ∧ r.recurrenceGroupId = some seriesId
    · simp [Function.comp, seriesDonePatch, h]
    · simp [Function.comp, seriesDonePatch, h]

/-- C7: a series-wide operation naming a series the caller does not own
(wrong owner or non-existent series id) is a silent no-op — both
`completeSeries` and `deleteSeries` leave every record unchanged and
report a zero count, with no error raised (both are total functions). -/
theorem seriesOps_unowned_noop (db : List TaskRow)
    (seriesId ownerId now : Nat)
    (h : ∀ r ∈ db, ¬(r.userId = ownerId ∧
      r.recurrenceGroupId = some seriesId)) :
    (completeSeries db seriesId ownerId now).1 = db ∧
    (completeSeries db seriesId ownerId now).2 = 0 ∧
    (deleteSeries db seriesId ownerId).1 = db ∧
    (deleteSeries db seriesId ownerId).2 = 0 := by
  refine ⟨?_, ?_, ?_, ?_⟩
  · show db.map (seriesDonePatch seriesId ownerId now) = db
    have : db.map (seriesDonePatch seriesId ownerId now) = db.map id :=
      List.map_congr_left (fun r hr => by simp [seriesDonePatch, h r hr])
    rw [this, List.map_id]
  · exact List.countP_eq_zero.mpr (fun r hr => by simp [h r hr])
  · exact List.filter_eq_self.mpr (fun r hr => by simp [h r hr])
  · exact List.countP_eq_zero.mpr (fun r hr => by simp [h r hr])

/-- The C9 postcondition of marking one occurrence done via
`useToggleTaskStatus` at one full argument tuple: the record set keeps its
length; position by position, the row whose id and owner match becomes
`done` with `completedAt` and `updatedAt` stamped and every other field
unchanged, while every row with a different id or owner is returned
exactly as it was; and exactly one row of the record set matches. -/
def ToggleOneFrame (db : List TaskRow) (taskId ownerId : Nat)
    (currentStatus : TaskStatus) (now : Nat) : Prop :=
  (toggleTaskStatus db taskId ownerId currentStatus now).length =
      db.length ∧
  (∀ i : Nat,
    (toggleTaskStatus db taskId ownerId currentStatus now)[i]? =
      (db[i]?).map (fun r =>
        if r.id = taskId ∧ r.userId = ownerId then
          { r with
            status := .done, completedAt := some now, updatedAt := now }
        else r)) ∧
  db.countP (fun r => decide (r.id = taskId ∧ r.userId = ownerId)) = 1

/-- C9: completing one occurrence mutates exactly one record — when the
row ids are unique (the primary key invariant), the record with the given
id and owner exists and the toggle is a completion (current status not
`done`), the row with that id and owner is set to `done` with
`completedAt` stamped, every other row is untouched, and exactly one row
matches. -/
theorem toggleTaskStatus_frame (db : List TaskRow) (taskId ownerId : Nat)
    (currentStatus : TaskStatus) (now : Nat)
    (hnodup : (db.map TaskRow.id).Nodup)
    (hcur : currentStatus ≠ .done)
    (r0 : TaskRow) (hr0 : r0 ∈ db) (hid : r0.id = taskId)
    (hown : r0.userId = ownerId) :
    ToggleOneFrame db taskId ownerId currentStatus now := by
  refine ⟨List.length_map db _, ?_, ?_⟩
  · intro i
    show (db.map _)[i]? = _
    rw [List.getElem?_map]
    cases hdb : db[i]? with
    | none => simp [hdb]
    | some r =>
      simp only [Option.map_some']
      by_cases h : r.id = taskId ∧ r.userId = ownerId
      · rw [if_pos h, if_pos h, if_neg hcur]
        rfl
      · rw [if_neg h, if_neg h]
  · have hle : db.countP (fun r => decide (r.id = taskId ∧
        r.userId = ownerId)) ≤
        db.countP (fun r => r.id == taskId) := by
      refine List.countP_mono_left (fun r _ hr => ?_)
      simp only [decide_eq_true_eq] at hr
      simp [hr.1]
    have hcount : db.countP (fun r => r.id == taskId) =
        (db.map TaskRow.id).count taskId := by
      show _ = (db.map TaskRow.id).countP (· == taskId)
      rw [List.countP_map]
      rfl
    have hone : (db.map TaskRow.id).count taskId ≤ 1 :=
      List.nodup_iff_count_le_one.mp hnodup taskId
    have hpos : 0 < db.countP (fun r => decide (r.id = taskId ∧
        r.userId = ownerId)) :=
      List.countP_pos_iff.mpr ⟨r0, hr0, by simp [hid, hown]⟩
    omega

/-! ### Concrete data for the worked examples and witnesses -/

/-- A plain (non-recurring) client task used as a base for examples. -/
def baseTask : Task where
  id := ['x']
  userId := ['u']
  title := ['t']
  description := none
  dueDate := none
  startTime := none
  endTime := none
  isRecurring := false
  recurrenceDays := []
  recurrenceEndDate := none
  priority := .medium
  status := .todo
  completedAt := none
  createdAt := none
  isVirtual := false

/-- A recurring Monday/Wednesday task created on day 20457 (2026-01-04). -/
def exampleTask : Task :=
  { baseTask with
    id := ['a']
    isRecurring := true
    recurrenceDays := [.mon, .wed]
    createdAt := some 20457 }

/-- Timed task A of the layout-chaining scenario: 540 to 600 minutes. -/
def layoutTaskA : Task :=
  { baseTask with id := ['A'], startTime := some 540, endTime := some 600 }

/-- Timed task B of the layout-chaining scenario: 570 to 585 minutes. -/
def layoutTaskB : Task :=
  { baseTask with id := ['B'], startTime := some 570, endTime := some 585 }

/-- Timed task C of the layout-chaining scenario: 590 to 660 minutes. -/
def layoutTaskC : Task :=
  { baseTask with id := ['C'], startTime := some 590, endTime := some 660 }

/-- A base persisted row for examples. -/
def baseRow : TaskRow where
  id := 0
  userId := 0
  title := ['t']
  description := none
  dueDate := none
  startTime := none
  endTime := none
  isRecurring := false
  recurrenceDays := []
  recurrenceEndDate := none
  recurrenceGroupId := none
  priority := .low
  status := .todo
  completedAt := none
  createdAt := 0
  updatedAt := 0

/-- A series template row of owner 1: series id 5, null due date. -/
def exTemplateRow : TaskRow :=
  { baseRow with
    id := 5, userId := 1, isRecurring := true,
    recurrenceDays := [.mon, .wed], recurrenceGroupId := some 5 }

/-- An occurrence row of owner 1 in series 5, due on day 20458. -/
def exOccRow : TaskRow :=
  { baseRow with
    id := 6, userId := 1, isRecurring := true,
    recurrenceDays := [.mon, .wed], recurrenceGroupId := some 5,
    dueDate := some 20458 }

/-- A row of a different owner (owner 2, series 7). -/
def exOtherRow : TaskRow :=
  { baseRow with
    id := 9, userId := 2, recurrenceGroupId := some 7,
    dueDate := some 20460 }

/-- Submitted content fields for a new series. -/
def exampleFields : SeriesFields where
  title := ['t']
  description := none
  startTime := none
  endTime := none
  priority := .medium

/-- A Monday/Wednesday rule ending on day 20471 (2026-01-18). -/
def exampleRule : SeriesRule where
  weekdaySet := [.mon, .wed]
  recurrenceEndDate := some 20471

/-- C5: on the concrete input A(540-600), B(570-585), C(590-660), presented
in that order, the layout puts all three tasks in a single overlap group
with `columnCount = 3` for each of them (columns 0, 1, 2), even though the
intervals of A and C do not intersect — the group is chained through the
running maximum group end. -/
theorem computeLayout_chaining_example :
    ((computeLayout [layoutTaskA, layoutTaskB, layoutTaskC]).map
        (fun x => (x.startMin, x.endMin)) =
      [(540, 600), (570, 585), (590, 660)]) ∧
    ((computeLayout [layoutTaskA, layoutTaskB, layoutTaskC]).map
        (fun x => x.totalCols) = [3, 3, 3]) ∧
    ((computeLayout [layoutTaskA, layoutTaskB, layoutTaskC]).map
        (fun x => x.col) = [0, 1, 2]) := by
  decide

/-! ### Witnesses -/

/-- Witness for C1 at the example task and the window 20458..20471
(2026-01-05 to 2026-01-18). -/
theorem expandRecurringTask_correct_witness :
    exampleTask.isRecurring = true ∧ 20458 ≤ 20471 ∧
      ExpansionCorrect exampleTask 20458 20471 :=
  ⟨rfl, by decide,
    expandRecurringTask_correct exampleTask 20458 20471 rfl (by decide)⟩

/-- Witness for C2 at the three-task layout scenario. -/
theorem computeLayout_no_overlap_witness :
    (computeLayout [layoutTaskA, layoutTaskB, layoutTaskC]).Pairwise
      (fun a b => a.col = b.col →
        ¬(a.startMin < b.endMin ∧ b.startMin < a.endMin)) :=
  computeLayout_no_overlap [layoutTaskA, layoutTaskB, layoutTaskC]

/-- Witness for C3: the concrete template row is kept out of the visible
list of its owner. -/
theorem listVisibleTasks_spec_witness :
    exTemplateRow.recurrenceGroupId ≠ none ∧ exTemplateRow.dueDate = none ∧
      exTemplateRow ∉ listVisibleTasks [exTemplateRow, exOccRow] 1 :=
  ⟨by decide, rfl,
    listVisibleTasks_spec.2 [exTemplateRow, exOccRow] 1 exTemplateRow
      (by decide) rfl⟩

/-- Witness for C4 at an empty store, owner 1, the example fields and rule,
today = 20458, template id 5, fresh occurrence ids 10, 11, ... -/
theorem createSeries_spec_witness :
    exampleFields.title ≠ [] ∧ exampleRule.weekdaySet ≠ [] ∧
      CreateSeriesOk [] 1 exampleFields exampleRule 20458 5
        (fun i => 10 + i) 100 :=
  ⟨by decide, by decide,
    createSeries_spec [] 1 exampleFields exampleRule 20458 5
      (fun i => 10 + i) 100 (by decide) (by decide)⟩

/-- Witness for C7: on a store holding only a row of owner 2, the series
operations of owner 1 on series 5 are silent no-ops. -/
theorem seriesOps_unowned_noop_witness :
    (∀ r ∈ [exOtherRow],
        ¬(r.userId = 1 ∧ r.recurrenceGroupId = some 5)) ∧
      ((completeSeries [exOtherRow] 5 1 100).1 = [exOtherRow] ∧
        (completeSeries [exOtherRow] 5 1 100).2 = 0 ∧
        (deleteSeries [exOtherRow] 5 1).1 = [exOtherRow] ∧
        (deleteSeries [exOtherRow] 5 1).2 = 0) :=
  ⟨by decide, seriesOps_unowned_noop [exOtherRow] 5 1 100 (by decide)⟩

/-- Witness for C8 at the example task, narrow window 20458..20471 inside
wide window 20400..20500. -/
theorem expandRecurringTask_window_monotone_witness :
    20400 ≤ 20458 ∧ 20471 ≤ 20500 ∧
      ∀ d ∈ occurrenceDates exampleTask 20458 20471,
        d ∈ occurrenceDates exampleTask 20400 20500 :=
  ⟨by decide, by decide,
    expandRecurringTask_window_monotone exampleTask 20400 20458 20471 20500
      (by decide) (by decide)⟩

/-- Witness for C9: completing row 6 of owner 1 on a two-row store. -/
theorem toggleTaskStatus_frame_witness :
    (([exOccRow, exOtherRow].map TaskRow.id).Nodup ∧
        TaskStatus.todo ≠ TaskStatus.done ∧
        exOccRow ∈ [exOccRow, exOtherRow] ∧ exOccRow.id = 6 ∧
        exOccRow.userId = 1) ∧
      ToggleOneFrame [exOccRow, exOtherRow] 6 1 .todo 100 :=
  ⟨⟨by decide, by decide, by decide, rfl, rfl⟩,
    toggleTaskStatus_frame [exOccRow, exOtherRow] 6 1 .todo 100
      (by decide) (by decide) exOccRow (by decide) rfl rfl⟩

/-- Witness for C10: the round trip at a concrete virtual instance, and a
concrete untagged id. -/
theorem getRealTaskId_roundtrip_witness :
    (':' ∉ exampleTask.id ∧
        getRealTaskId (mkVirtualInstance exampleTask 20458).id =
          exampleTask.id) ∧
      (startsWithChars virtualTag ['p'] = false ∧
        getRealTaskId ['p'] = ['p']) :=
  ⟨⟨by decide,
      getRealTaskId_roundtrip.1 exampleTask 20458 20471
        (mkVirtualInstance exampleTask 20458) (by decide) (by decide)⟩,
    by decide, getRealTaskId_roundtrip.2 ['p'] (by decide)⟩

end AllMe
